import Mathlib

/-!
Verification development for the `signals` reactive library.

The repository ships `src/wip/signals.ts` (the computation facade:
`createSignal`, `createMemo`, `createEffect`) and `tests/mapArray.test.ts`.
The graph-engine core (`./core`: `createComputation`, `read`, `write`,
`dispose`, `onDispose`) and the keyed array mapper (`mapArray`) are imported
by those files but their implementations are not part of the sources, so
they are modelled from the specification; the facade functions are embedded
directly from `signals.ts`.

The development has two parts:
1. a pure model of the keyed reconciliation algorithm of `mapArray`
   (spec §4.3), used for the keyed-reuse / precision / emptiness claims;
2. a small-step state model of the graph engine (spec §4.1) with a deep
   embedding of computation bodies, over which the facade functions of
   `signals.ts` are embedded, used for the effect / signal claims.
-/

namespace Signals

/-! ### JavaScript values

Reference identity of objects and functions is modelled by a numeric id:
two values are "reference-identical" exactly when they are equal terms. -/

/-- A JavaScript runtime value, as far as the claims need it.  `obj` carries
an identity together with its string-valued fields (field values richer
than strings never occur in the modelled scenarios); `func` is an opaque
function reference carrying only its identity. -/
inductive Value where
  | null : Value
  | undefined : Value
  | bool (b : Bool) : Value
  | num (n : Int) : Value
  | str (s : String) : Value
  | func (fid : Nat) : Value
  | obj (oid : Nat) (fields : List (String × String)) : Value
deriving DecidableEq, Repr

/-- `isFunction` from `src/wip/core`: a runtime check whether a value is
invocable. -/
def isFunction : Value → Bool
  | .func _ => true
  | _ => false

/-- JavaScript property access `v[p]`: objects yield the field (or
`undefined` when absent); every other value — in particular a function,
which carries no data properties here — yields `undefined`. -/
def getProp : Value → String → Value
  | .obj _ fields, p => ((fields.lookup p).map .str).getD .undefined
  | _, _ => .undefined

/-! ### Part 1: the keyed array mapper (`mapArray`)

Modelled from the spec: the implementation of `mapArray` is not among the
source files (only `tests/mapArray.test.ts` exercises it), so the
reconciliation algorithm of spec §4.3 is embedded as a pure function over
the mapper's key table.  A table entry records, for one live key, the
identity (`outId`) of the output produced by the single `mapFn` call made
when the key first appeared, and the current value of the key's index
signal (`idx`).  Output entries are "reference-identical" across
reconciliations exactly when their `outId` is unchanged. -/

/-- One entry of the mapper's `keyToChild` table: the key, the identity of
the child computation's output (assigned once, at creation), and the
current value of the key's index signal. -/
structure MapEntry (K : Type) where
  key : K
  outId : Nat
  idx : Nat
deriving DecidableEq, Repr

/-- Result of one reconciliation pass: the new table in source order (its
`outId`s, read off in order, are the mapper's output sequence), the next
fresh output identity, and how many times `mapFn` was called during the
pass. -/
structure MapRes (K : Type) where
  entries : List (MapEntry K)
  nextId : Nat
  calls : Nat
deriving DecidableEq, Repr

variable {K : Type} [DecidableEq K]

/-- Modelled from the spec (§4.3 steps 2–3, 5): walk the new key sequence;
a key already in the table reuses its entry (same `outId`) with the index
signal set to the new position; a new key creates a fresh entry — one
`mapFn` call — with a fresh `outId`.  `i` is the position of the head key,
`nid` the next fresh output identity. -/
def reconcileList (old : List (MapEntry K)) : List K → Nat → Nat → MapRes K
  | [], _, nid => ⟨[], nid, 0⟩
  | k :: ks, i, nid =>
    match old.find? (fun e => e.key = k) with
    | some e =>
      let r := reconcileList old ks (i + 1) nid
      ⟨{ e with idx := i } :: r.entries, r.nextId, r.calls⟩
    | none =>
      let r := reconcileList old ks (i + 1) (nid + 1)
      ⟨⟨k, nid, i⟩ :: r.entries, r.nextId, r.calls + 1⟩

/-- Modelled from the spec: one full reconciliation pass of `mapArray`
against the new source key sequence, starting at position 0. -/
def reconcile (old : List (MapEntry K)) (ks : List K) (nid : Nat) : MapRes K :=
  reconcileList old ks 0 nid

/-- Modelled from the spec (§4.3 step 4): the keys whose child computations
are disposed by a reconciliation pass — those present in the old table but
absent from the new source sequence. -/
def disposedKeys (old : List (MapEntry K)) (ks : List K) : List K :=
  (old.filter (fun e => ¬ e.key ∈ ks)).map (·.key)

/-- The two candidate calling conventions for the first argument of
`mapFn`: the raw item value, or an accessor function (an opaque function
value, which carries no data properties).  The spec's signature says
accessor; the repository's test reads `value.id` directly off the first
argument, which decides between the two. -/
inductive ArgConv where
  | raw
  | accessor
deriving DecidableEq, Repr

/-- The first argument `mapArray` passes to `mapFn` for the item at
position `i` under a given convention; under `accessor` it is a fresh
function value. -/
def mapFnFirstArg (conv : ArgConv) (item : Value) (i : Nat) : Value :=
  match conv with
  | .raw => item
  | .accessor => .func i

/-- The sequence of first arguments `mapFn` receives when every item of a
source sequence is fresh (one `mapFn` call per item, at its position). -/
def mapFnFirstArgs (conv : ArgConv) : List Value → Nat → List Value
  | [], _ => []
  | it :: its, i => mapFnFirstArg conv it i :: mapFnFirstArgs conv its (i + 1)

/-- From `tests/mapArray.test.ts` (lines 12–20): the test's `mapFn` reads
`value.id` off its first argument and exposes it as the output's `id`. -/
def testMapFnOutputId (firstArg : Value) : Value := getProp firstArg "id"

/-- From `tests/mapArray.test.ts` (lines 4–8): the test's initial source
items `{id:'a'}, {id:'b'}, {id:'c'}`. -/
def testItems : List Value :=
  [.obj 0 [("id", "a")], .obj 1 [("id", "b")], .obj 2 [("id", "c")]]

/-- The `id` fields the test observes on the mapper's outputs under a
given calling convention. -/
def testObservedIds (conv : ArgConv) : List Value :=
  (mapFnFirstArgs conv testItems 0).map testMapFnOutputId

/-- The table of the test scenario: three live keys with distinct output
identities, at positions 0, 1, 2. -/
def exTable : List (MapEntry Nat) := [⟨0, 10, 0⟩, ⟨1, 11, 1⟩, ⟨2, 12, 2⟩]

/-- The first entry of `exTable`, the one removed in the removal scenario. -/
def exHead : MapEntry Nat := ⟨0, 10, 0⟩

/-- The last two entries of `exTable`, the survivors of the removal
scenario. -/
def exTail : List (MapEntry Nat) := [⟨1, 11, 1⟩, ⟨2, 12, 2⟩]

/-! ### Part 2: the graph engine and the computation facade

The graph engine (`./core`) is not among the source files; it is modelled
from the spec (§4.1, §5): nodes live in a growable table addressed by
index, computation bodies are deeply embedded so that the engine can
re-execute them, and every potentially non-terminating walk is bounded by
explicit fuel (`none` = out of fuel or an error such as
`DisposedAccessError`).  The facade functions are embedded from
`src/wip/signals.ts`. -/

/-- A computation body: the effects a user function can perform against
the engine. `ret` finishes with a value; `readN` reads node `i` and
continues with its value; `onDisp` registers a cleanup value via
`onDispose`; `mkNode` creates a child computation (`createComputation`)
and continues with its index. -/
inductive Body where
  | ret (v : Value)
  | readN (i : Nat) (k : Value → Body)
  | onDisp (f : Value) (k : Body)
  | mkNode (ini : Value) (cmp : Option Body) (k : Nat → Body)

/-- Sequencing of computation bodies. -/
def Body.bind : Body → (Value → Body) → Body
  | .ret v, f => f v
  | .readN i k, f => .readN i (fun v => (k v).bind f)
  | .onDisp c k, f => .onDisp c (k.bind f)
  | .mkNode ini cmp k, f => .mkNode ini cmp (fun j => (k j).bind f)

/-- Modelled from the spec (§3): the atomic graph unit.  `children` is the
ownership set — computations created while this node's `compute` was
executing. -/
structure Node where
  value : Value
  compute : Option Body
  stale : Bool
  sources : List Nat
  observers : List Nat
  disposed : Bool
  cleanups : List Value
  isEffect : Bool
  children : List Nat

/-- Modelled from the spec: the whole engine state.  `activeStack` is the
active-computation stack used for dependency recording and `onDispose`;
`pendingEffects` the flush queue in staleness-discovery order; `runLog`
records every node whose `compute` executed, in order; `cleanupRunLog`
records every cleanup value that was run. -/
structure St where
  nodes : List Node
  activeStack : List Nat
  pendingEffects : List Nat
  inFlush : Bool
  runLog : List Nat
  cleanupRunLog : List Value

/-- The empty engine state. -/
def St.empty : St := ⟨[], [], [], false, [], []⟩

/-- Fetch node `i`. -/
def getNode (st : St) (i : Nat) : Option Node := st.nodes[i]?

/-- Replace node `i`. -/
def setNode (st : St) (i : Nat) (n : Node) : St :=
  { st with nodes := st.nodes.set i n }

/-- Update node `i` in place (no-op when absent). -/
def modifyNode (st : St) (i : Nat) (f : Node → Node) : St :=
  match st.nodes[i]? with
  | some n => setNode st i (f n)
  | none => st

/-- Modelled from the spec: `createComputation(initialValue, compute)` —
a fresh node, stale exactly when it has a compute function (first read
triggers the first execution); a node created while a computation is
active is recorded as that computation's owned child. -/
def createComputation (ini : Value) (cmp : Option Body) (st : St) : Nat × St :=
  let i := st.nodes.length
  let node : Node :=
    { value := ini, compute := cmp, stale := cmp.isSome, sources := [],
      observers := [], disposed := false, cleanups := [], isEffect := false,
      children := [] }
  let st1 : St := { st with nodes := st.nodes ++ [node] }
  match st1.activeStack.head? with
  | some p =>
    (i, modifyNode st1 p (fun n => { n with children := n.children ++ [i] }))
  | none => (i, st1)

/-- Modelled from the spec (§4.1 read): detach node `i` from all its
current sources, removing it from their observer sets. -/
def detachSources (i : Nat) (st : St) : St :=
  match getNode st i with
  | none => st
  | some n =>
    let st1 := n.sources.foldl
      (fun acc s => modifyNode acc s
        (fun sn => { sn with observers := sn.observers.erase i })) st
    modifyNode st1 i (fun nn => { nn with sources := [] })

/-- Modelled from the spec (§3 disposal invariant): detach node `i` from
all its observers, removing it from their source sets. -/
def detachObservers (i : Nat) (st : St) : St :=
  match getNode st i with
  | none => st
  | some n =>
    n.observers.foldl
      (fun acc o => modifyNode acc o
        (fun onn => { onn with sources := onn.sources.erase i })) st

/-- Modelled from the spec (§4.1 write): breadth-first staleness
propagation from a write.  Each reachable computation is marked stale
exactly once (the visited set makes the walk idempotent); effects are
appended to the pending queue in the order their staleness is first
observed. -/
def markStaleBFS (fuel : Nat) (st : St) : List Nat → List Nat → St
  | [], _ => st
  | i :: rest, visited =>
    match fuel with
    | 0 => st
    | fuel + 1 =>
      if i ∈ visited then markStaleBFS fuel st rest visited
      else
        match getNode st i with
        | none => markStaleBFS fuel st rest (i :: visited)
        | some n =>
          let st1 := setNode st i { n with stale := true }
          let st2 :=
            if n.isEffect then
              { st1 with pendingEffects := st1.pendingEffects ++ [i] }
            else st1
          markStaleBFS fuel st2 (rest ++ n.observers) (i :: visited)

mutual

/-- Modelled from the spec (§4.1 read): error on a disposed node;
recompute when stale; register the read node as a source of the active
computation (and the active computation as an observer of it); return the
node's value. -/
def readNode (fuel : Nat) (i : Nat) (st : St) : Option (Value × St) :=
  match fuel with
  | 0 => none
  | fuel + 1 =>
    match getNode st i with
    | none => none
    | some n =>
      if n.disposed then none
      else
        let recomputed : Option St :=
          if n.stale then
            match n.compute with
            | some body => recomputeNode fuel i body st
            | none => some st
          else some st
        match recomputed with
        | none => none
        | some st1 =>
          let st2 :=
            match st1.activeStack.head? with
            | some p =>
              let stp := modifyNode st1 p (fun pn =>
                if i ∈ pn.sources then pn
                else { pn with sources := pn.sources ++ [i] })
              modifyNode stp i (fun nn =>
                if p ∈ nn.observers then nn
                else { nn with observers := nn.observers ++ [p] })
            | none => st1
          match getNode st2 i with
          | some n2 => some (n2.value, st2)
          | none => none

/-- Modelled from the spec (§4.1 read, §3 cleanups, §4.1 ownership): a
recompute runs the node's cleanups in reverse registration order, disposes
the children created during the previous run, prunes the old source edges,
executes the body with the node pushed on the active stack, then stores
the value and clears staleness. -/
def recomputeNode (fuel : Nat) (i : Nat) (body : Body) (st : St) : Option St :=
  match fuel with
  | 0 => none
  | fuel + 1 =>
    match getNode st i with
    | none => none
    | some n =>
      let st1 : St :=
        { setNode st i { n with cleanups := [], children := [] } with
          cleanupRunLog := st.cleanupRunLog ++ n.cleanups.reverse }
      match disposeList fuel n.children st1 with
      | none => none
      | some st2 =>
        let st3 := detachSources i st2
        let st4 : St := { st3 with activeStack := i :: st3.activeStack }
        match execBody fuel body st4 with
        | none => none
        | some (v, st5) =>
          let st6 : St :=
            { st5 with activeStack := st5.activeStack.tail,
                       runLog := st5.runLog ++ [i] }
          some (modifyNode st6 i (fun nn =>
            { nn with value := v, stale := false }))

/-- Run a computation body against the engine: reads recompute-on-demand
and record dependencies; `onDisp` appends a cleanup to the active
computation (silent no-op at top level, per spec §4.1 `onDispose`);
`mkNode` is `createComputation` in scope. -/
def execBody (fuel : Nat) (body : Body) (st : St) : Option (Value × St) :=
  match fuel with
  | 0 => none
  | fuel + 1 =>
    match body with
    | .ret v => some (v, st)
    | .readN i k =>
      match readNode fuel i st with
      | none => none
      | some (v, st1) => execBody fuel (k v) st1
    | .onDisp f k =>
      let st1 :=
        match st.activeStack.head? with
        | some p => modifyNode st p (fun n =>
            { n with cleanups := n.cleanups ++ [f] })
        | none => st
      execBody fuel k st1
    | .mkNode ini cmp k =>
      let r := createComputation ini cmp st
      execBody fuel (k r.1) r.2

/-- Modelled from the spec (§4.1 dispose with `disposeChildrenToo`): run
the cleanups in reverse registration order, recursively dispose the owned
children, detach the node from the graph and mark it disposed.  Disposing
an already-disposed node is a `DisposedAccessError` (spec §7). -/
def disposeNode (fuel : Nat) (i : Nat) (withChildren : Bool) (st : St) :
    Option St :=
  match fuel with
  | 0 => none
  | fuel + 1 =>
    match getNode st i with
    | none => none
    | some n =>
      if n.disposed then none
      else
        let st1 : St :=
          { modifyNode st i (fun nn => { nn with cleanups := [] }) with
            cleanupRunLog := st.cleanupRunLog ++ n.cleanups.reverse }
        match (if withChildren then disposeList fuel n.children st1
               else some st1) with
        | none => none
        | some st2 =>
          let st3 := detachObservers i (detachSources i st2)
          some (modifyNode st3 i (fun nn =>
            { nn with disposed := true, sources := [], observers := [],
                      children := [] }))

/-- Dispose every node of the list (children are always disposed
transitively, per spec §4.1's ownership tree). -/
def disposeList (fuel : Nat) (is : List Nat) (st : St) : Option St :=
  match is with
  | [] => some st
  | i :: rest =>
    match fuel with
    | 0 => none
    | fuel + 1 =>
      match disposeNode fuel i true st with
      | none => none
      | some st1 => disposeList fuel rest st1

end

/-- Modelled from the spec (§4.1 write): run the pending effect queue to
exhaustion; a disposed entry is skipped (spec §5 cancellation), a live one
is re-read (it is stale, so this re-executes it), and any effects it makes
stale extend the same queue. -/
def flushLoop (fuel : Nat) (st : St) : Option St :=
  match st.pendingEffects with
  | [] => some st
  | i :: rest =>
    match fuel with
    | 0 => none
    | fuel + 1 =>
      let st1 : St := { st with pendingEffects := rest }
      match getNode st1 i with
      | none => none
      | some n =>
        if n.disposed then flushLoop fuel st1
        else
          match readNode fuel i st1 with
          | none => none
          | some r => flushLoop fuel r.2

/-- The argument accepted by a signal's write function: a plain value or
an updater applied to the previous value (spec §6). -/
inductive WriteArg where
  | val (v : Value)
  | fn (f : Value → Value)

/-- Modelled from the spec (§4.1 write): error on a disposed node; no-op
when the new value is reference-equal to the current one; otherwise assign
it, propagate staleness breadth-first, and — when no flush is already in
progress — run a synchronous flush of all pending effects before
returning. -/
def writeNode (fuel : Nat) (i : Nat) (a : WriteArg) (st : St) : Option St :=
  match getNode st i with
  | none => none
  | some n =>
    if n.disposed then none
    else
      let newVal := match a with | .val v => v | .fn f => f n.value
      if newVal = n.value then some st
      else
        let st1 := setNode st i { n with value := newVal }
        let st2 := markStaleBFS fuel st1 n.observers []
        if st2.inFlush then some st2
        else
          match flushLoop fuel { st2 with inFlush := true } with
          | none => none
          | some st3 => some { st3 with inFlush := false }

/-- From `src/wip/signals.ts` (`runEffect`, lines 65–69): run the user
effect; when its result is invocable, register it via `onDispose`; always
return `null`. -/
def runEffect (effect : Body) : Body :=
  effect.bind fun result =>
    if isFunction result then .onDisp result (.ret .null) else .ret .null

/-- From `src/wip/signals.ts` (`createSignal`): a fresh plain node
(`compute` is `null`); the read/write pair bound to it is modelled by the
returned node index, read and written through `readNode`/`writeNode`. -/
def createSignal (ini : Value) (st : St) : Nat × St :=
  createComputation ini none st

/-- The stop handle returned by `createEffect`: `dispose` pre-bound to the
effect's node and to the `disposeChildrenToo` flag. -/
structure StopHandle where
  node : Nat
  disposeChildrenToo : Bool
deriving DecidableEq, Repr

/-- From `src/wip/signals.ts` (`createEffect`): create a node computing
`runEffect` around the user effect, flag it as an effect, force an initial
read, and return the stop handle `dispose.bind(signal, true)`. -/
def createEffect (fuel : Nat) (effect : Body) (st : St) :
    Option (StopHandle × St) :=
  let r := createComputation .null (some (runEffect effect)) st
  let st1 := modifyNode r.2 r.1 (fun n => { n with isEffect := true })
  match readNode fuel r.1 st1 with
  | none => none
  | some p => some (⟨r.1, true⟩, p.2)

/-- Invoking the stop handle applies `dispose` with the handle's bound
arguments. -/
def runStopHandle (fuel : Nat) (h : StopHandle) (st : St) : Option St :=
  disposeNode fuel h.node h.disposeChildrenToo st

/-! Scenario bodies and states.  The canonical scenario mirrors the
repository's test `should notify observer`: one signal (node 0) and one
effect (node 1) whose body reads the signal. -/

/-- A user effect that reads the signal at node 0 and returns `r` (the
test's effect `() => map()` is the case where `r` is not invocable). -/
def effRet (r : Value) : Body := .readN 0 (fun _ => .ret r)

/-- A user effect that reads the signal at node 0 and creates a child
computation during its own execution scope. -/
def effChild : Body :=
  .readN 0 (fun _ => .mkNode (.num 7) (some (.ret (.num 8))) (fun _ => .ret .null))

/-- The engine state right after `createSignal a` on the empty state: one
plain node holding `a`. -/
def sigSt (a : Value) : St :=
  ⟨[⟨a, none, false, [], [], false, [], false, []⟩], [], [], false, [], []⟩

/-- The engine state right after `createEffect (effRet r)` on the state of
`sigSt a`: the signal now observed by the effect node, which has executed
once (`runLog = [1]`) and carries the returned cleanup exactly when `r` is
invocable. -/
def effStR (a r : Value) : St :=
  ⟨[⟨a, none, false, [], [1], false, [], false, []⟩,
    ⟨.null, some (runEffect (effRet r)), false, [0], [],
      false, if isFunction r then [r] else [], true, []⟩],
   [], [], false, [1], []⟩

/-- The engine state right after `createEffect effChild` on the state of
`sigSt a`: the effect node owns the child computation node 2, which was
created during the effect's execution and is still lazily stale. -/
def childSt (a : Value) : St :=
  ⟨[⟨a, none, false, [], [1], false, [], false, []⟩,
    ⟨.null, some (runEffect effChild), false, [0], [], false, [], true, [2]⟩,
    ⟨.num 7, some (.ret (.num 8)), true, [], [], false, [], false, []⟩],
   [], [], false, [1], []⟩

/-! Structural lemmas about one reconciliation pass. -/

theorem reconcileList_length (old : List (MapEntry K)) (ks : List K) (i nid : Nat) :
    (reconcileList old ks i nid).entries.length = ks.length := by
  induction ks generalizing i nid with
  | nil => rfl
  | cons k ks ih =>
    simp only [reconcileList]
    cases h : old.find? (fun e => e.key = k) <;>
      simp [List.length_cons, ih]

theorem reconcileList_map_key (old : List (MapEntry K)) (ks : List K) (i nid : Nat) :
    (reconcileList old ks i nid).entries.map (·.key) = ks := by
  induction ks generalizing i nid with
  | nil => rfl
  | cons k ks ih =>
    simp only [reconcileList]
    cases h : old.find? (fun e => e.key = k) with
    | none => simp [ih]
    | some e =>
      have hk : e.key = k := by
        have := List.find?_some h
        simpa using this
      simp [ih, hk]

theorem reconcileList_calls (old : List (MapEntry K)) (ks : List K) (i nid : Nat) :
    (reconcileList old ks i nid).calls =
      ks.countP (fun k => (old.find? (fun e => e.key = k)).isNone) := by
  induction ks generalizing i nid with
  | nil => rfl
  | cons k ks ih =>
    simp only [reconcileList, List.countP_cons]
    cases h : old.find? (fun e => e.key = k) <;> simp [ih, h]

/-- In a table whose keys are distinct, looking up the key of a member
finds exactly that member. -/
theorem find?_key_self {old : List (MapEntry K)}
    (hnd : (old.map (·.key)).Nodup) {e : MapEntry K} (he : e ∈ old) :
    old.find? (fun x => x.key = e.key) = some e := by
  induction old with
  | nil => cases he
  | cons a old ih =>
    simp only [List.map_cons, List.nodup_cons] at hnd
    rcases List.mem_cons.1 he with rfl | he'
    · simp [List.find?_cons]
    · have hne : a.key ≠ e.key := by
        intro hEq
        exact hnd.1 (hEq ▸ List.mem_map_of_mem (·.key) he')
      rw [List.find?_cons_of_neg _ (by simpa using hne)]
      exact ih hnd.2 he'

/-- A key present in the table is reconciled to the found entry with its
index signal set to the key's position; in particular the `outId` — the
output's reference identity — is reused. -/
theorem reconcileList_getElem_found (old : List (MapEntry K)) (ks : List K)
    (i nid : Nat) (j : Nat) (hj : j < ks.length) (e : MapEntry K)
    (hfind : old.find? (fun x => x.key = ks[j]) = some e) :
    (reconcileList old ks i nid).entries[j]? = some ⟨ks[j], e.outId, i + j⟩ := by
  induction ks generalizing i nid j with
  | nil => cases hj
  | cons k ks ih =>
    cases j with
    | zero =>
      simp only [List.getElem_cons_zero] at hfind
      have hk : e.key = k := by simpa using List.find?_some hfind
      simp [reconcileList, hfind, hk]
    | succ j =>
      simp only [List.getElem_cons_succ] at hfind
      have hj' : j < ks.length := Nat.lt_of_succ_lt_succ hj
      simp only [reconcileList]
      have harith : i + (j + 1) = (i + 1) + j := by omega
      cases h : old.find? (fun x => x.key = k) with
      | none =>
        simpa [harith] using ih (i + 1) (nid + 1) j hj' hfind
      | some e' =>
        simpa [harith] using ih (i + 1) nid j hj' hfind

/-- When every key of a prefix is already in the table, reconciliation of an
appended sequence splits: the prefix is reused entry by entry and the suffix
is reconciled from the position after the prefix, with the fresh-identity
counter untouched. -/
theorem reconcileList_entries_append_found (old : List (MapEntry K))
    (ks₀ ks₁ : List K) (i nid : Nat)
    (h : ∀ k ∈ ks₀, (old.find? (fun e => e.key = k)).isSome) :
    (reconcileList old (ks₀ ++ ks₁) i nid).entries =
      (reconcileList old ks₀ i nid).entries ++
        (reconcileList old ks₁ (i + ks₀.length) nid).entries := by
  induction ks₀ generalizing i with
  | nil => simp [reconcileList]
  | cons k ks₀ ih =>
    obtain ⟨e, hfind⟩ :=
      Option.isSome_iff_exists.1 (h k (List.mem_cons_self k ks₀))
    have harith : i + 1 + ks₀.length = i + (ks₀.length + 1) := by omega
    simp only [List.cons_append, reconcileList, hfind, List.append_eq]
    rw [ih (i + 1) fun k' hk' => h k' (List.mem_cons_of_mem k hk')]
    simp [harith]

/-- No key of the new sequence is disposed; so when every old key persists,
nothing is disposed. -/
theorem disposedKeys_eq_nil {old : List (MapEntry K)} {ks : List K}
    (h : ∀ e ∈ old, e.key ∈ ks) : disposedKeys old ks = [] := by
  simp only [disposedKeys, List.map_eq_nil_iff]
  rw [List.filter_eq_nil_iff]
  intro e he
  simpa using h e he

/-- C1: for every `mapArray`-derived sequence, reordering the source array
via a write — the new key sequence is a permutation of the table's keys —
causes zero additional calls to `mapFn`, disposes no child, and yields, at
every position, an output entry that is reference-identical (same `outId`,
matched by key) to an entry present before the reorder, with only the index
signal's value changed to the new position. -/
theorem mapArray_reorder_keyed_reuse (old : List (MapEntry K)) (ks : List K)
    (nid : Nat) (hperm : (old.map (·.key)).Perm ks) :
    (reconcile old ks nid).calls = 0 ∧
    disposedKeys old ks = [] ∧
    (reconcile old ks nid).entries.map (·.key) = ks ∧
    ∀ j, (hj : j < ks.length) → ∃ e ∈ old, e.key = ks[j] ∧
      (reconcile old ks nid).entries[j]? = some ⟨ks[j], e.outId, j⟩ := by
  have hmem : ∀ k ∈ ks, ∃ e ∈ old, e.key = k := by
    intro k hk
    have : k ∈ old.map (·.key) := hperm.mem_iff.2 hk
    simpa using this
  refine ⟨?_, ?_, ?_, ?_⟩
  · rw [reconcile, reconcileList_calls, List.countP_eq_zero]
    intro k hk
    obtain ⟨e, he, hek⟩ := hmem k hk
    rcases hfind : old.find? (fun x => x.key = k) with _ | e'
    · exact absurd (by simpa using hek)
        (by simpa using List.find?_eq_none.1 hfind e he)
    · simp [hfind]
  · exact disposedKeys_eq_nil fun e he =>
      hperm.subset (List.mem_map_of_mem (·.key) he)
  · exact reconcileList_map_key old ks 0 nid
  · intro j hj
    obtain ⟨e, he, hek⟩ := hmem ks[j] (ks.getElem_mem hj)
    rcases hfind : old.find? (fun x => x.key = ks[j]) with _ | e'
    · exact absurd (by simpa using hek)
        (by simpa using List.find?_eq_none.1 hfind e he)
    · refine ⟨e', List.mem_of_find?_eq_some hfind,
        by simpa using List.find?_some hfind, ?_⟩
      simpa using reconcileList_getElem_found old ks 0 nid j hj e' hfind

/-- Witness for the reorder property at the scenario of the repository's
test: a three-key table reconciled against the swap of the first two
keys. -/
theorem mapArray_reorder_keyed_reuse_witness :
    (reconcile [⟨0, 10, 0⟩, ⟨1, 11, 1⟩, ⟨2, 12, 2⟩] [1, 0, 2] 13).calls = 0 ∧
    disposedKeys [⟨0, 10, 0⟩, ⟨1, 11, 1⟩, ⟨2, 12, 2⟩] ([1, 0, 2] : List Nat) = [] ∧
    (reconcile [⟨0, 10, 0⟩, ⟨1, 11, 1⟩, ⟨2, 12, 2⟩] [1, 0, 2] 13).entries.map
      (·.key) = [1, 0, 2] ∧
    ∀ j, (hj : j < ([1, 0, 2] : List Nat).length) →
      ∃ e ∈ [(⟨0, 10, 0⟩ : MapEntry Nat), ⟨1, 11, 1⟩, ⟨2, 12, 2⟩],
        e.key = [1, 0, 2][j] ∧
        (reconcile [⟨0, 10, 0⟩, ⟨1, 11, 1⟩, ⟨2, 12, 2⟩] [1, 0, 2] 13).entries[j]? =
          some ⟨[1, 0, 2][j], e.outId, j⟩ :=
  mapArray_reorder_keyed_reuse [⟨0, 10, 0⟩, ⟨1, 11, 1⟩, ⟨2, 12, 2⟩] [1, 0, 2] 13
    (by decide)

/-- C2: appending one fresh key to the source sequence of an `N`-entry
table makes exactly one `mapFn` call, disposes nothing, keeps every
existing entry reference-identical (same key and `outId`) at its position,
and appends one new entry for the fresh key at position `N`; removing one
item makes zero `mapFn` calls, disposes exactly the removed key's child,
and keeps every remaining entry reference-identical. -/
theorem mapArray_append_remove_precision
    (oldA : List (MapEntry K)) (k : K) (nid : Nat)
    (hndA : (oldA.map (·.key)).Nodup) (hk : ∀ e ∈ oldA, e.key ≠ k)
    (o1 o2 : List (MapEntry K)) (eRem : MapEntry K) (nid' : Nat)
    (hndR : (((o1 ++ eRem :: o2).map (·.key))).Nodup) :
    ((reconcile oldA (oldA.map (·.key) ++ [k]) nid).calls = 1 ∧
     disposedKeys oldA (oldA.map (·.key) ++ [k]) = [] ∧
     (∀ j, (hj : j < oldA.length) →
       (reconcile oldA (oldA.map (·.key) ++ [k]) nid).entries[j]? =
         some ⟨oldA[j].key, oldA[j].outId, j⟩) ∧
     (reconcile oldA (oldA.map (·.key) ++ [k]) nid).entries[oldA.length]? =
       some ⟨k, nid, oldA.length⟩) ∧
    ((reconcile (o1 ++ eRem :: o2) ((o1 ++ o2).map (·.key)) nid').calls = 0 ∧
     disposedKeys (o1 ++ eRem :: o2) ((o1 ++ o2).map (·.key)) = [eRem.key] ∧
     ∀ j, (hj : j < (o1 ++ o2).length) →
       (reconcile (o1 ++ eRem :: o2) ((o1 ++ o2).map (·.key)) nid').entries[j]? =
         some ⟨(o1 ++ o2)[j].key, (o1 ++ o2)[j].outId, j⟩) := by
  constructor
  · have hfindk : oldA.find? (fun e => e.key = k) = none :=
      List.find?_eq_none.2 fun e he => by simpa using hk e he
    have hfound : ∀ k' ∈ oldA.map (·.key),
        (oldA.find? (fun e => e.key = k')).isSome := by
      intro k' hk'
      obtain ⟨e, he, hek⟩ := List.mem_map.1 hk'
      exact List.find?_isSome.2 ⟨e, he, by simpa using hek⟩
    refine ⟨?_, ?_, ?_, ?_⟩
    · rw [reconcile, reconcileList_calls, List.countP_append]
      have h0 : (oldA.map (·.key)).countP
          (fun k' => (oldA.find? (fun e => e.key = k')).isNone) = 0 := by
        rw [List.countP_eq_zero]
        intro k' hk'
        have hs := hfound k' hk'
        intro hnone
        rw [Option.isNone_iff_eq_none] at hnone
        rw [hnone] at hs
        cases hs
      simp [h0, hfindk]
    · exact disposedKeys_eq_nil fun e he =>
        List.mem_append_left _ (List.mem_map_of_mem (·.key) he)
    · intro j hj
      have hjk : j < (oldA.map (·.key) ++ [k]).length := by
        simp only [List.length_append, List.length_map, List.length_cons,
          List.length_nil]
        omega
      have hidx : (oldA.map (·.key) ++ [k])[j] = oldA[j].key := by
        rw [List.getElem_append_left (by simpa using hj)]
        simp
      have hfind : oldA.find? (fun x => x.key = (oldA.map (·.key) ++ [k])[j]) =
          some oldA[j] := by
        rw [hidx]
        exact find?_key_self hndA (oldA.getElem_mem hj)
      have := reconcileList_getElem_found oldA _ 0 nid j hjk _ hfind
      simpa [hidx] using this
    · have hsplit := reconcileList_entries_append_found oldA
        (oldA.map (·.key)) [k] 0 nid hfound
      rw [reconcile, hsplit, List.getElem?_append_right
        (by simp [reconcileList_length])]
      simp [reconcileList_length, reconcileList, hfindk]
  · have hmapnd : (o1.map (·.key) ++ eRem.key :: o2.map (·.key)).Nodup := by
      simpa using hndR
    rw [List.nodup_append] at hmapnd
    obtain ⟨hnd1, hndc, hdisj⟩ := hmapnd
    have hrem1 : eRem.key ∉ o1.map (·.key) := fun h =>
      hdisj h (List.mem_cons_self _ _)
    have hrem2 : eRem.key ∉ o2.map (·.key) := (List.nodup_cons.1 hndc).1
    have hrem : eRem.key ∉ (o1 ++ o2).map (·.key) := by
      rw [List.map_append]
      intro h
      rcases List.mem_append.1 h with h | h
      · exact hrem1 h
      · exact hrem2 h
    have hsub : ∀ e ∈ o1 ++ o2, e ∈ o1 ++ eRem :: o2 := by
      intro e he
      rcases List.mem_append.1 he with h | h
      · exact List.mem_append_left _ h
      · exact List.mem_append_right _ (List.mem_cons_of_mem _ h)
    have hkeysub : ∀ e ∈ o1 ++ o2, e.key ∈ (o1 ++ o2).map (·.key) := fun e he =>
      List.mem_map_of_mem (·.key) he
    refine ⟨?_, ?_, ?_⟩
    · rw [reconcile, reconcileList_calls, List.countP_eq_zero]
      intro k' hk'
      obtain ⟨e, he, hek⟩ := List.mem_map.1 hk'
      have hs : ((o1 ++ eRem :: o2).find? (fun x => x.key = k')).isSome :=
        List.find?_isSome.2 ⟨e, hsub e he, by simpa using hek⟩
      intro hnone
      rw [Option.isNone_iff_eq_none] at hnone
      rw [hnone] at hs
      cases hs
    · have hf1 : o1.filter (fun e => ¬ e.key ∈ (o1 ++ o2).map (·.key)) = [] :=
        List.filter_eq_nil_iff.2 fun e he => by
          simp only [decide_eq_true_eq, not_not]
          exact hkeysub e (List.mem_append_left _ he)
      have hf2 : o2.filter (fun e => ¬ e.key ∈ (o1 ++ o2).map (·.key)) = [] :=
        List.filter_eq_nil_iff.2 fun e he => by
          simp only [decide_eq_true_eq, not_not]
          exact hkeysub e (List.mem_append_right _ he)
      rw [disposedKeys, List.filter_append, hf1, List.filter_cons,
        if_pos (by simpa using hrem), hf2]
      simp
    · intro j hj
      have hjk : j < ((o1 ++ o2).map (·.key)).length := by simpa using hj
      have hidx : ((o1 ++ o2).map (·.key))[j] = (o1 ++ o2)[j].key := by
        rw [List.getElem_map]
      have hfind : (o1 ++ eRem :: o2).find?
          (fun x => x.key = ((o1 ++ o2).map (·.key))[j]) =
          some ((o1 ++ o2)[j]) := by
        rw [hidx]
        exact find?_key_self hndR (hsub _ ((o1 ++ o2).getElem_mem hj))
      have hmain := reconcileList_getElem_found (o1 ++ eRem :: o2)
        ((o1 ++ o2).map (·.key)) 0 nid' j hjk _ hfind
      rw [reconcile, hmain]
      simp only [Option.some.injEq, MapEntry.mk.injEq, Nat.zero_add]
      exact ⟨hidx, trivial, trivial⟩

/-- Witness for the append/removal precision: the three-entry table of the
repository's test with a fourth key appended, and the same table with its
first entry removed. -/
theorem mapArray_append_remove_precision_witness :
    ((reconcile exTable (exTable.map (·.key) ++ [3]) 13).calls = 1 ∧
     disposedKeys exTable (exTable.map (·.key) ++ [3]) = [] ∧
     (∀ j, (hj : j < exTable.length) →
       (reconcile exTable (exTable.map (·.key) ++ [3]) 13).entries[j]? =
         some ⟨exTable[j].key, exTable[j].outId, j⟩) ∧
     (reconcile exTable (exTable.map (·.key) ++ [3]) 13).entries[exTable.length]? =
       some ⟨3, 13, exTable.length⟩) ∧
    ((reconcile ([] ++ exHead :: exTail)
        ((([] : List (MapEntry Nat)) ++ exTail).map (·.key)) 20).calls = 0 ∧
     disposedKeys ([] ++ exHead :: exTail)
        ((([] : List (MapEntry Nat)) ++ exTail).map (·.key)) = [exHead.key] ∧
     ∀ j, (hj : j < (([] : List (MapEntry Nat)) ++ exTail).length) →
       (reconcile ([] ++ exHead :: exTail)
          ((([] : List (MapEntry Nat)) ++ exTail).map (·.key)) 20).entries[j]? =
         some ⟨(([] : List (MapEntry Nat)) ++ exTail)[j].key,
           (([] : List (MapEntry Nat)) ++ exTail)[j].outId, j⟩) :=
  mapArray_append_remove_precision exTable 3 13 (by decide) (by decide)
    [] exTail exHead 20 (by decide)

/-- C7: writing an empty array to the source disposes every existing child
computation (all table keys are disposed), yields an empty output sequence,
and makes zero additional calls to `mapFn`. -/
theorem mapArray_empty_source (old : List (MapEntry K)) (nid : Nat) :
    (reconcile old [] nid).entries = [] ∧
    (reconcile old [] nid).calls = 0 ∧
    disposedKeys old [] = old.map (·.key) := by
  refine ⟨rfl, rfl, ?_⟩
  simp [disposedKeys]

/-- C3 counterexample: the claim that `mapFn`'s first argument is an
accessor function fails on the repository's test: the test's `mapFn`
reads `value.id` off the first argument and the test asserts the observed
ids are `a`, `b`, `c`; under the accessor convention every observed id
would be `undefined` (a function value carries no `id` property), and the
first argument the raw convention passes for the first item is not a
function at all. -/
theorem mapFn_first_arg_not_accessor :
    testObservedIds .accessor ≠ [.str "a", .str "b", .str "c"] ∧
    testObservedIds .accessor = [.undefined, .undefined, .undefined] ∧
    testObservedIds .raw = [.str "a", .str "b", .str "c"] := by
  refine ⟨?_, rfl, rfl⟩
  intro h
  exact absurd (congrArg (fun l => l[0]?) h) (by decide)

/-- C3 amended: the first argument `mapArray` passes to `mapFn` is the raw
current item value itself — not an accessor — for every item of every
source sequence; under this convention the test's observed ids match its
assertions. -/
theorem mapFn_first_arg_raw (items : List Value) (i : Nat) :
    mapFnFirstArgs .raw items i = items ∧
    testObservedIds .raw = [.str "a", .str "b", .str "c"] := by
  refine ⟨?_, rfl⟩
  induction items generalizing i with
  | nil => rfl
  | cons it its ih => simp [mapFnFirstArgs, mapFnFirstArg, ih]

/-! Evaluation lemmas for the engine scenarios. -/

/-- `createSignal` on the empty state yields node 0 in the one-signal
state. -/
theorem createSignal_empty_eq (a : Value) :
    createSignal a St.empty = (0, sigSt a) := rfl

/-- `createEffect` with the canonical reading effect: the effect node has
executed once and the stop handle carries `disposeChildrenToo = true`. -/
theorem createEffect_effRet_eq (a r : Value) :
    createEffect 10 (effRet r) (createSignal a St.empty).2 =
      some (⟨1, true⟩, effStR a r) := by
  cases r <;>
    simp [createEffect, createSignal, createComputation, St.empty, readNode,
      recomputeNode, execBody, runEffect, Body.bind, isFunction, getNode,
      setNode, modifyNode, detachSources, disposeList, markStaleBFS, flushLoop,
      effRet, effStR]

/-- `createEffect` with the child-creating effect: the child node 2 is
owned by the effect node 1. -/
theorem createEffect_effChild_eq (a : Value) :
    createEffect 10 effChild (createSignal a St.empty).2 =
      some (⟨1, true⟩, childSt a) := by
  simp [createEffect, createSignal, createComputation, St.empty, readNode,
    recomputeNode, execBody, runEffect, Body.bind, isFunction, getNode,
    setNode, modifyNode, detachSources, disposeList, markStaleBFS, flushLoop,
    effChild, childSt]

/-- C5: `createEffect` invokes the supplied effect function exactly once,
synchronously, during the `createEffect` call itself: the state paired
with the returned stop handle already logs exactly one execution of the
effect node, for every initial signal value and every effect result. -/
theorem createEffect_runs_once (a r : Value) :
    (createEffect 10 (effRet r) (createSignal a St.empty).2).map
      (fun p => (p.1.node, p.2.runLog)) = some (1, [1]) := by
  rw [createEffect_effRet_eq]
  rfl

/-- C6: when the effect function's return value is invocable it is
registered through `onDispose` as a cleanup of the effect's node, and runs
on disposal; a non-invocable return value registers nothing. -/
theorem effect_return_cleanup (a r : Value) :
    ((createEffect 10 (effRet r) (createSignal a St.empty).2).map
      (fun p => (getNode p.2 1).map (·.cleanups)) =
      some (some (if isFunction r then [r] else []))) ∧
    (((createEffect 10 (effRet (.func 5)) (createSignal a St.empty).2).bind
      (fun p => runStopHandle 10 p.1 p.2)).map (·.cleanupRunLog) =
      some [.func 5]) := by
  constructor
  · rw [createEffect_effRet_eq]
    rfl
  · rw [createEffect_effRet_eq]
    simp [runStopHandle, disposeNode, disposeList, detachSources,
      detachObservers, getNode, setNode, modifyNode, effStR, isFunction]

set_option maxHeartbeats 1000000 in
/-- C9: the effect node's value is `null` after every execution — after
the forced initial run for every effect result `r`, and after a
write-triggered re-run — because `runEffect` discards the user result and
returns `null`. -/
theorem effect_value_null (a r : Value) :
    ((createEffect 10 (effRet r) (createSignal a St.empty).2).map
      (fun p => (getNode p.2 1).map (·.value)) = some (some .null)) ∧
    (((createEffect 10 (effRet r) (createSignal (.num 0) St.empty).2).bind
      (fun p => writeNode 12 0 (.val (.num 1)) p.2)).map
      (fun st => ((getNode st 1).map (·.value), st.runLog)) =
      some (some .null, [1, 1])) := by
  constructor
  · rw [createEffect_effRet_eq]
    rfl
  · rw [createEffect_effRet_eq]
    rw [Option.some_bind]
    cases r <;>
      simp [writeNode, readNode, recomputeNode, execBody, runEffect, Body.bind,
        isFunction, getNode, setNode, modifyNode, detachSources, disposeList,
        markStaleBFS, flushLoop, effRet, effStR]

set_option maxHeartbeats 1000000 in
/-- C4: a write outside any flush pass triggers a synchronous flush: when
the write returns, the pending queue is empty, the flush flag is reset,
and the effect observing the written signal has already re-run
(`runLog = [1, 1]`) — without any explicit `flushSync` call. -/
theorem write_synchronous_flush (a b : Value) (h : b ≠ a) :
    ((createEffect 10 (effRet .null) (createSignal a St.empty).2).bind
      (fun p => writeNode 12 0 (.val b) p.2)).map
      (fun st => (st.runLog, st.pendingEffects, st.inFlush)) =
      some ([1, 1], [], false) := by
  rw [createEffect_effRet_eq]
  rw [Option.some_bind]
  simp [writeNode, h, readNode, recomputeNode, execBody, runEffect, Body.bind,
    isFunction, getNode, setNode, modifyNode, detachSources, disposeList,
    markStaleBFS, flushLoop, effRet, effStR]

/-- Witness: the synchronous-flush theorem at the concrete write `0 ↦ 1`. -/
theorem write_synchronous_flush_witness :
    ((createEffect 10 (effRet .null) (createSignal (.num 0) St.empty).2).bind
      (fun p => writeNode 12 0 (.val (.num 1)) p.2)).map
      (fun st => (st.runLog, st.pendingEffects, st.inFlush)) =
      some ([1, 1], [], false) :=
  write_synchronous_flush (.num 0) (.num 1) (by decide)

/-- C8: `createSignal a` yields a fresh plain node (index 0, `compute`
absent) whose read returns `a`, and whose write accepts either a plain
value (stored as given) or an updater applied to the previous value. -/
theorem createSignal_contract (a b : Value) (f : Value → Value) :
    (createSignal a St.empty).1 = 0 ∧
    (getNode (createSignal a St.empty).2 0).map (·.compute) = some none ∧
    (getNode (createSignal a St.empty).2 0).map (·.value) = some a ∧
    (readNode 8 0 (createSignal a St.empty).2).map (·.1) = some a ∧
    ((writeNode 8 0 (.val b) (createSignal a St.empty).2).bind
      (fun st => getNode st 0)).map (·.value) = some b ∧
    ((writeNode 8 0 (.fn f) (createSignal a St.empty).2).bind
      (fun st => getNode st 0)).map (·.value) = some (f a) := by
  refine ⟨rfl, rfl, rfl, ?_, ?_, ?_⟩
  · simp [readNode, createSignal, createComputation, St.empty, getNode,
      setNode, modifyNode]
  · by_cases hba : b = a
    · subst hba
      simp [writeNode, createSignal, createComputation, St.empty, getNode,
        setNode, modifyNode, markStaleBFS, flushLoop]
    · simp [writeNode, hba, createSignal, createComputation, St.empty, getNode,
        setNode, modifyNode, markStaleBFS, flushLoop]
  · by_cases hfa : f a = a
    · simp [writeNode, hfa, createSignal, createComputation, St.empty, getNode,
        setNode, modifyNode, markStaleBFS, flushLoop]
    · simp [writeNode, hfa, createSignal, createComputation, St.empty, getNode,
        setNode, modifyNode, markStaleBFS, flushLoop]

/-- C10: the stop handle returned by `createEffect` is `dispose` bound
with `disposeChildrenToo = true`, so stopping the effect disposes the
effect node and every child computation created during its execution
scope. -/
theorem stopEffect_disposes_children (a : Value) :
    ((createEffect 10 effChild (createSignal a St.empty).2).map (·.1) =
      some ⟨1, true⟩) ∧
    (((createEffect 10 effChild (createSignal a St.empty).2).bind
      (fun p => runStopHandle 10 p.1 p.2)).map
      (fun st => st.nodes.map (·.disposed)) = some [false, true, true]) := by
  constructor
  · rw [createEffect_effChild_eq]
    rfl
  · rw [createEffect_effChild_eq]
    simp [runStopHandle, disposeNode, disposeList, detachSources,
      detachObservers, getNode, setNode, modifyNode, childSt]

end Signals
